import Mathlib

/-!
Shallow embedding of the Heliocentric Calendar generator
(`CalendarGenerator.ts` / its documented variant).

Time instants are epoch milliseconds, modelled as integers; angle values
are modelled as exact rationals.  The astronomy-engine and moment-timezone
collaborators (HelioVector, SearchHourAngle, Seasons, SearchPlanetApsis,
MoonPhase, timezone parsing and civil-date arithmetic) are abstracted as an
`Ephemeris` record of pure functions, following the repository's
collaborator boundary.  All repository-side computation — the degree
normalizer `getDegree`, the candidate-day classifier, the birthday binary
search with its wrap-around corrections, month bucketing, event placement,
the day loop, and the per-run heliocentric-longitude cache — is translated
directly from the source.
-/

/-- Milliseconds in a standard 24-hour day (source constant 86400000). -/
def msPerDay : ℤ := 86400000

/-- Civil (UTC) day number of an instant in epoch milliseconds; two instants
format to the same `YYYY-MM-DD` UTC date exactly when their day numbers agree. -/
def dayOf (t : ℤ) : ℤ := Int.ediv t msPerDay

/-- Truncation toward zero, as used by the JavaScript `%` operator. -/
def truncZ (q : ℚ) : ℤ := if 0 ≤ q then ⌊q⌋ else ⌈q⌉

/-- The JavaScript remainder operator `x % m` for `m > 0`:
`x - m * trunc(x / m)`. -/
def jsMod (x m : ℚ) : ℚ := x - m * truncZ (x / m)

/-- `parseFloat(q.toFixed(2))`: rounding to 2 decimal places, ties away
from zero toward the larger value, as specified for `Number.toFixed`. -/
def round2 (q : ℚ) : ℚ := ((⌊q * 100 + 1/2⌋ : ℤ) : ℚ) / 100

/-- Source `getDegree`: `parseFloat(((helioLongitude - springEquinoxLongitude
+ 360) % 360).toFixed(2))`. -/
def getDegree (helioLongitude springEquinoxLongitude : ℚ) : ℚ :=
  round2 (jsMod (helioLongitude - springEquinoxLongitude + 360) 360)

/-- Modelled from the spec (not from the source): the normalized degree
without the 2-decimal rounding, as §4.1/§4.3 of the spec demand for the
search comparisons. -/
def normalizeUnrounded (helioLongitude springEquinoxLongitude : ℚ) : ℚ :=
  jsMod (helioLongitude - springEquinoxLongitude + 360) 360

/-- Observer location (latitude, longitude, elevation). -/
structure Observer where
  latitude : ℚ
  longitude : ℚ
  elevation : ℚ
deriving DecidableEq

/-- The four instants returned by `Seasons(year)`. -/
structure SeasonSet where
  marEquinox : ℤ
  junSolstice : ℤ
  sepEquinox : ℤ
  decSolstice : ℤ
deriving DecidableEq

/-- The collaborator surface consumed by the generator: heliocentric
longitude of Earth at an instant, the solar-day window resolver built on
`SearchHourAngle`, lunar phase angle, `Seasons`, the apsis searches, and
the civil-time helpers (`moment(...).year()`, `moment.tz` parsing). -/
structure Ephemeris where
  longitudeAt : ℤ → ℚ
  solarStart : Observer → ℤ → ℤ
  solarNoon : Observer → ℤ → ℤ
  solarEnd : Observer → ℤ → ℤ
  moonPhaseAngle : ℤ → ℚ
  seasons : ℤ → SeasonSet
  aphelionAt : ℤ → ℤ
  perihelionAt : ℤ → ℤ
  yearOf : ℤ → ℤ
  parseTz : String → String → String → ℤ

/-- An event entry `{ name, description, date }`; the formatted date string
is modelled by the instant it formats. -/
structure EventTag where
  name : String
  description : String
  instant : ℤ
deriving DecidableEq

/-- A generated day record (`Day` in the source); `date` is the civil day
number of `currentDate`, `solarDegree` the normalized degree at solar noon. -/
structure DayRec where
  number : ℕ
  date : ℤ
  solarStart : ℤ
  solarNoon : ℤ
  solarEnd : ℤ
  moonPhase : String
  delta : ℤ
  solarDegree : ℚ
  events : List EventTag
deriving DecidableEq

/-- A finalized month bucket (`Month` in the source). -/
structure MonthRec where
  month : ℕ
  name : String
  totalDays : ℕ
  days : List DayRec
deriving DecidableEq

/-- The `Events` record passed to `generateCalendarYear`. -/
structure YearEvents where
  springEquinox : ℤ
  summerSolstice : ℤ
  autumnEquinox : ℤ
  winterSolstice : ℤ
  springEquinox2 : ℤ
  aphelion : ℤ
  perihelion : ℤ
  birth : ℤ
deriving DecidableEq

/-- The zodiac month names, indexed by bucket. -/
def zodiacNames : List String :=
  ["Aries", "Taurus", "Gemini", "Cancer", "Leo", "Virgo",
   "Libra", "Scorpio", "Sagittarius", "Capricorn", "Aquarius", "Pisces"]

/-- The six fixed astronomical events displayed on the calendar. -/
def equinoxSolsticeEvents (ev : YearEvents) : List EventTag :=
  [{ name := "Spring Equinox", description := "The beginning of Spring.", instant := ev.springEquinox },
   { name := "Summer Solstice", description := "The longest day of the year.", instant := ev.summerSolstice },
   { name := "Autumn Equinox", description := "The beginning of Autumn.", instant := ev.autumnEquinox },
   { name := "Winter Solstice", description := "The shortest day of the year.", instant := ev.winterSolstice },
   { name := "Aphelion", description := "Earth is farthest away from the Sun.", instant := ev.aphelion },
   { name := "Perihelion", description := "The Earth is closest to the Sun.", instant := ev.perihelion }]

/-- The 8-bin moon-phase classifier from `getDayInfo`. -/
def moonPhaseLabel (moon : ℚ) : String :=
  if 0 ≤ moon ∧ moon < 45 then "New Moon"
  else if 45 ≤ moon ∧ moon < 90 then "Waxing Cres."
  else if 90 ≤ moon ∧ moon < 135 then "First Quarter"
  else if 135 ≤ moon ∧ moon < 180 then "Waxing Gibb."
  else if 180 ≤ moon ∧ moon < 225 then "Full Moon"
  else if 225 ≤ moon ∧ moon < 270 then "Waning Gibb."
  else if 270 ≤ moon ∧ moon < 315 then "Third Quarter"
  else if 315 ≤ moon ∧ moon ≤ 360 then "Waning Cres."
  else ""

/-- `getBirthDegree`: the birth degree relative to the birth year's Spring
Equinox, or the previous year's one when the birth precedes it. -/
def getBirthDegree (E : Ephemeris) (birthDate : ℤ) : ℚ :=
  let birthYearEquinox := (E.seasons (E.yearOf birthDate)).marEquinox
  let refLon :=
    if birthDate < birthYearEquinox then
      E.longitudeAt ((E.seasons (E.yearOf birthDate - 1)).marEquinox)
    else
      E.longitudeAt birthYearEquinox
  getDegree (E.longitudeAt birthDate) refLon

/-- The candidate-day classifier (`degreeRangeCoversBirthTarget`): normal
case when the day's start degree does not exceed its end degree, wrap case
otherwise. -/
def coversTarget (solarStartDegree solarEndDegree target : ℚ) : Bool :=
  if solarStartDegree ≤ solarEndDegree then
    decide (target ≥ solarStartDegree ∧ target ≤ solarEndDegree)
  else
    decide (target ≥ solarStartDegree ∨ target ≤ solarEndDegree)

/-- The birthday binary search over millisecond timestamps, translated from
the source loop: stops when the (2-decimal-rounded, since `getDegree`
rounds) probe degree is within 0.001 of the target, otherwise narrows the
window, inverting the direction in the two wrap-around situations. -/
def bisect (f : ℤ → ℚ) (eqLon target ds de : ℚ) : ℤ → ℤ → ℕ → Option ℤ
  | _, _, 0 => none
  | low, high, fuel + 1 =>
    if low ≤ high then
      let mid := low + (high - low) / 2
      let testDegree := getDegree (f mid) eqLon
      if |testDegree - target| < 1/1000 then some mid
      else if testDegree < target then
        if ds > de ∧ testDegree < de ∧ target > ds then
          bisect f eqLon target ds de low (mid - 1) fuel
        else
          bisect f eqLon target ds de (mid + 1) high fuel
      else
        if ds > de ∧ testDegree > ds ∧ target < de then
          bisect f eqLon target ds de (mid + 1) high fuel
        else
          bisect f eqLon target ds de low (mid - 1) fuel
    else none

/-- Modelled from the spec (not from the source): the same binary search but
with the probe degree left unrounded, as §4.1/§4.3 of the spec describe. -/
def bisectUnroundedProbe (f : ℤ → ℚ) (eqLon target ds de : ℚ) : ℤ → ℤ → ℕ → Option ℤ
  | _, _, 0 => none
  | low, high, fuel + 1 =>
    if low ≤ high then
      let mid := low + (high - low) / 2
      let testDegree := normalizeUnrounded (f mid) eqLon
      if |testDegree - target| < 1/1000 then some mid
      else if testDegree < target then
        if ds > de ∧ testDegree < de ∧ target > ds then
          bisectUnroundedProbe f eqLon target ds de low (mid - 1) fuel
        else
          bisectUnroundedProbe f eqLon target ds de (mid + 1) high fuel
      else
        if ds > de ∧ testDegree > ds ∧ target < de then
          bisectUnroundedProbe f eqLon target ds de (mid + 1) high fuel
        else
          bisectUnroundedProbe f eqLon target ds de low (mid - 1) fuel
    else none

/-- One day's birthday check: compute the day-window degrees, classify, and
run the binary search over the solar-day window when the day is a
candidate (`maxIterations = 100`). -/
def searchDay (E : Ephemeris) (obs : Observer) (eqLon target : ℚ) (cur : ℤ) : Option ℤ :=
  let solarStartDegree := getDegree (E.longitudeAt (E.solarStart obs cur)) eqLon
  let solarEndDegree := getDegree (E.longitudeAt (E.solarEnd obs cur)) eqLon
  if coversTarget solarStartDegree solarEndDegree target then
    bisect E.longitudeAt eqLon target solarStartDegree solarEndDegree
      (E.solarStart obs cur) (E.solarEnd obs cur) 100
  else none

/-- `finalFoundBirthMoment` after one day's search: the found moment when
the search matched, the previous value otherwise. -/
def foundAfter (E : Ephemeris) (obs : Observer) (eqLon target : ℚ) (cur fd : ℤ) : ℤ :=
  match searchDay E obs eqLon target cur with
  | some m => m
  | none => fd

/-- Event determination for a day: the orbital birthday takes exclusive
priority when the (current) found birth moment shares the day's civil date;
otherwise the astronomical events falling on that civil date. -/
def dayEvents (astro : List EventTag) (fd cur : ℤ) : List EventTag :=
  if dayOf fd = dayOf cur then
    [{ name := "BirthOrbit", description := "Birthday", instant := fd }]
  else
    astro.filter fun e => decide (dayOf e.instant = dayOf cur)

/-- Month bucket selection: `Math.floor(degree / 30)`, wrapping an index of
12 or more back to 0 (kept as an integer, exactly as the source computes). -/
def monthIndexZ (deg : ℚ) : ℤ :=
  let i := ⌊deg / 30⌋
  if 12 ≤ i then 0 else i

/-- The day record built for `currentDate = cur`, given the post-search
found moment `fd`, the solar-noon degree, and the target bucket's size. -/
def mkDayRec (E : Ephemeris) (obs : Observer) (astro : List EventTag)
    (cur fd : ℤ) (noonDegree : ℚ) (len : ℕ) : DayRec :=
  { number := len + 1
    date := dayOf cur
    solarStart := E.solarStart obs cur
    solarNoon := E.solarNoon obs cur
    solarEnd := E.solarEnd obs cur
    moonPhase := moonPhaseLabel (E.moonPhaseAngle (E.solarNoon obs cur))
    delta := E.solarEnd obs cur - E.solarStart obs cur - msPerDay
    solarDegree := noonDegree
    events := dayEvents astro fd cur }

/-- In-progress generation state: the 12 month buckets (their `Days`
sequences) and `finalFoundBirthMoment`. -/
structure GenState where
  months : List (List DayRec)
  found : ℤ
deriving DecidableEq

/-- One iteration of the source's day loop: run the birthday search, pick
the month bucket from the solar-noon degree, build the day record, and push
it onto the selected bucket. -/
def stepDay (E : Ephemeris) (obs : Observer) (eqLon target : ℚ)
    (astro : List EventTag) (cur : ℤ) (st : GenState) : GenState :=
  let fd := foundAfter E obs eqLon target cur st.found
  let noonDegree := getDegree (E.longitudeAt (E.solarNoon obs cur)) eqLon
  let k := (monthIndexZ noonDegree).toNat
  let bucket := st.months.getD k []
  { months := st.months.set k (bucket ++ [mkDayRec E obs astro cur fd noonDegree bucket.length])
    found := fd }

/-- The source's `while (currentDate.isBefore(SpringEquinox2, 'day'))` loop,
advancing one civil day per iteration; the fuel given by the caller equals
the exact number of iterations the while-condition allows. -/
def dayLoop (E : Ephemeris) (obs : Observer) (eqLon target : ℚ)
    (astro : List EventTag) (endDay : ℤ) : ℕ → ℤ → GenState → GenState
  | 0, _, st => st
  | fuel + 1, cur, st =>
    if dayOf cur < endDay then
      dayLoop E obs eqLon target astro endDay fuel (cur + msPerDay)
        (stepDay E obs eqLon target astro cur st)
    else st

/-- Finalization: each bucket becomes a `Month` with `TotalDays` set to the
length of its day sequence. -/
def finalize (months : List (List DayRec)) : List MonthRec :=
  (List.range 12).map fun m =>
    { month := m + 1
      name := zodiacNames.getD m ""
      totalDays := (months.getD m []).length
      days := months.getD m [] }

/-- `generateCalendarYear`: reference longitude at the Spring Equinox, the
constant target birth degree, the day loop from the Spring Equinox to the
day before the next one, and finalization of the 12 buckets. -/
def generateCalendarYear (E : Ephemeris) (obs : Observer) (ev : YearEvents) :
    GenState × List MonthRec :=
  let eqLon := E.longitudeAt ev.springEquinox
  let target := getBirthDegree E ev.birth
  let astro := equinoxSolsticeEvents ev
  let endDay := dayOf ev.springEquinox2
  let fuel := (endDay - dayOf ev.springEquinox).toNat
  let init : GenState := { months := List.replicate 12 [], found := ev.birth }
  let final := dayLoop E obs eqLon target astro endDay fuel ev.springEquinox init
  (final, finalize final.months)

/-- `eventList`: the astronomical events for a generation year, built from
the seasons of the year and the next, and the apsis searches. -/
def eventListM (E : Ephemeris) (year : ℤ) (birth : ℤ) : YearEvents :=
  { springEquinox := (E.seasons year).marEquinox
    summerSolstice := (E.seasons year).junSolstice
    autumnEquinox := (E.seasons year).sepEquinox
    winterSolstice := (E.seasons year).decSolstice
    springEquinox2 := (E.seasons (year + 1)).marEquinox
    aphelion := E.aphelionAt year
    perihelion := E.perihelionAt year
    birth := birth }

/-! The per-run heliocentric-longitude cache (`heliocentricLongitudeCache`),
keyed by the instant (the source keys by its ISO string, which determines
and is determined by the millisecond instant). -/

/-- The cache contents: instant-keyed longitude entries. -/
abbrev LonCache : Type := List (ℤ × ℚ)

/-- `getHeliocentricLongitude` with the cache: return the cached value on a
hit, otherwise compute and store. -/
def getHelioC (f : ℤ → ℚ) (c : LonCache) (t : ℤ) : ℚ × LonCache :=
  match List.lookup t c with
  | some v => (v, c)
  | none => (f t, (t, f t) :: c)

/-- A cache is consistent with the longitude function when every entry
stores that function's value at its key. -/
def Consistent (f : ℤ → ℚ) (c : LonCache) : Prop :=
  ∀ t v, (t, v) ∈ c → v = f t

/-- `getBirthDegree` in cache-threading form. -/
def getBirthDegreeC (E : Ephemeris) (birthDate : ℤ) (c : LonCache) : ℚ × LonCache :=
  let birthYearEquinox := (E.seasons (E.yearOf birthDate)).marEquinox
  let p :=
    if birthDate < birthYearEquinox then
      getHelioC E.longitudeAt c ((E.seasons (E.yearOf birthDate - 1)).marEquinox)
    else
      getHelioC E.longitudeAt c birthYearEquinox
  let q := getHelioC E.longitudeAt p.2 birthDate
  (getDegree q.1 p.1, q.2)

/-- The binary search in cache-threading form. -/
def bisectC (f : ℤ → ℚ) (eqLon target ds de : ℚ) :
    ℤ → ℤ → ℕ → LonCache → Option ℤ × LonCache
  | _, _, 0, c => (none, c)
  | low, high, fuel + 1, c =>
    if low ≤ high then
      let mid := low + (high - low) / 2
      let p := getHelioC f c mid
      let testDegree := getDegree p.1 eqLon
      if |testDegree - target| < 1/1000 then (some mid, p.2)
      else if testDegree < target then
        if ds > de ∧ testDegree < de ∧ target > ds then
          bisectC f eqLon target ds de low (mid - 1) fuel p.2
        else
          bisectC f eqLon target ds de (mid + 1) high fuel p.2
      else
        if ds > de ∧ testDegree > ds ∧ target < de then
          bisectC f eqLon target ds de (mid + 1) high fuel p.2
        else
          bisectC f eqLon target ds de low (mid - 1) fuel p.2
    else (none, c)

/-- One day's birthday check in cache-threading form. -/
def searchDayC (E : Ephemeris) (obs : Observer) (eqLon target : ℚ) (cur : ℤ)
    (c : LonCache) : Option ℤ × LonCache :=
  let p1 := getHelioC E.longitudeAt c (E.solarStart obs cur)
  let p2 := getHelioC E.longitudeAt p1.2 (E.solarEnd obs cur)
  let solarStartDegree := getDegree p1.1 eqLon
  let solarEndDegree := getDegree p2.1 eqLon
  if coversTarget solarStartDegree solarEndDegree target then
    bisectC E.longitudeAt eqLon target solarStartDegree solarEndDegree
      (E.solarStart obs cur) (E.solarEnd obs cur) 100 p2.2
  else (none, p2.2)

/-- One day-loop iteration in cache-threading form. -/
def stepDayC (E : Ephemeris) (obs : Observer) (eqLon target : ℚ)
    (astro : List EventTag) (cur : ℤ) (st : GenState) (c : LonCache) :
    GenState × LonCache :=
  let s := searchDayC E obs eqLon target cur c
  let fd := match s.1 with | some m => m | none => st.found
  let pn := getHelioC E.longitudeAt s.2 (E.solarNoon obs cur)
  let noonDegree := getDegree pn.1 eqLon
  let k := (monthIndexZ noonDegree).toNat
  let bucket := st.months.getD k []
  (⟨st.months.set k (bucket ++ [mkDayRec E obs astro cur fd noonDegree bucket.length]), fd⟩,
   pn.2)

/-- The day loop in cache-threading form. -/
def dayLoopC (E : Ephemeris) (obs : Observer) (eqLon target : ℚ)
    (astro : List EventTag) (endDay : ℤ) : ℕ → ℤ → GenState → LonCache → GenState × LonCache
  | 0, _, st, c => (st, c)
  | fuel + 1, cur, st, c =>
    if dayOf cur < endDay then
      let p := stepDayC E obs eqLon target astro cur st c
      dayLoopC E obs eqLon target astro endDay fuel (cur + msPerDay) p.1 p.2
    else (st, c)

/-- `generateCalendarYear` in cache-threading form. -/
def generateCalendarYearC (E : Ephemeris) (obs : Observer) (ev : YearEvents)
    (c : LonCache) : (GenState × List MonthRec) × LonCache :=
  let p0 := getHelioC E.longitudeAt c ev.springEquinox
  let tb := getBirthDegreeC E ev.birth p0.2
  let final := dayLoopC E obs p0.1 tb.1 (equinoxSolsticeEvents ev) (dayOf ev.springEquinox2)
    ((dayOf ev.springEquinox2 - dayOf ev.springEquinox).toNat) ev.springEquinox
    ⟨List.replicate 12 [], ev.birth⟩ tb.2
  ((final.1, finalize final.1.months), final.2)

/-- The module-level mutable state of the source: the longitude cache and
the previously published calendar. -/
structure World where
  cache : LonCache
  calendar : List MonthRec

/-- The parameters of the exported `generateCalendar` entry point. -/
structure GenParams where
  year : ℤ
  birthDate : String
  birthTime : String
  timezone : String
  latitude : ℚ
  longitude : ℚ
  elevation : ℚ

/-- The exported `generateCalendar` entry point: set the observer from the
parameters, parse the birth instant, clear the longitude cache, build the
event list, and generate the year, replacing the published calendar. -/
def generateCalendar (E : Ephemeris) (p : GenParams) (w : World) :
    World × List MonthRec :=
  let obs : Observer := ⟨p.latitude, p.longitude, p.elevation⟩
  let birth := E.parseTz p.birthDate p.birthTime p.timezone
  let cleared : LonCache := []
  let ev := eventListM E p.year birth
  let res := generateCalendarYearC E obs ev cleared
  (⟨res.2, res.1.2⟩, res.1.2)

/-- Sum of the bucket sizes of a months list. -/
def sumLen (l : List (List DayRec)) : ℕ := (l.map List.length).sum

/-- Whether a day record carries the orbital-birthday event. -/
def hasBirthTag (r : DayRec) : Bool :=
  r.events.any fun e => e.name == "BirthOrbit"

/-- Number of day records carrying the orbital-birthday event across the
twelve buckets. -/
def countBirthOrbit (months : List (List DayRec)) : ℕ :=
  (months.map fun b => (b.filter hasBirthTag).length).sum

/-- Shape of every generated day record's event list: either exactly the
orbital-birthday singleton for a moment sharing the record's civil date, or
exactly the astronomical events of the record's civil date. -/
def RecOK (astro : List EventTag) (r : DayRec) : Prop :=
  (∃ m : ℤ, r.events = [{ name := "BirthOrbit", description := "Birthday", instant := m }] ∧
      dayOf m = r.date) ∨
  r.events = astro.filter fun e => decide (dayOf e.instant = r.date)

/-- Invariant of the day loop at bound `d`: twelve buckets; every stored
record has a well-shaped event list, sits in the bucket its solar-noon
degree selects, has a civil date below the bound, and is the unique record
of its civil date. -/
def LoopInv (astro : List EventTag) (d : ℤ) (st : GenState) : Prop :=
  st.months.length = 12 ∧
  ∀ i r, r ∈ st.months.getD i [] →
    RecOK astro r ∧ (monthIndexZ r.solarDegree).toNat = i ∧ r.date < d ∧
    ∀ j s, s ∈ st.months.getD j [] → r.date = s.date → i = j ∧ r = s

/-- Degree-range invariant: every stored record's solar-noon degree lies in
the closed interval from 0 to 360. -/
def DegOK (st : GenState) : Prop :=
  ∀ i r, r ∈ st.months.getD i [] → 0 ≤ r.solarDegree ∧ r.solarDegree ≤ 360

/-! Concrete collaborator instances used to instantiate the theorems on
closed inputs. -/

/-- An observer at the origin. -/
def obsW : Observer := ⟨0, 0, 0⟩

/-- A collaborator on which no day ever covers the target degree (every
window degree is 0 while the target is 50), and whose birth instant falls on
the first generated civil day. -/
def ephN : Ephemeris :=
  { longitudeAt := fun t => if t = 5 then 100 else 50
    solarStart := fun _ _ => 0
    solarNoon := fun _ _ => 0
    solarEnd := fun _ _ => 0
    moonPhaseAngle := fun _ => 0
    seasons := fun y => if y = 0 then ⟨7, 0, 0, 0⟩ else ⟨-100, 0, 0, 0⟩
    aphelionAt := fun _ => 0
    perihelionAt := fun _ => 0
    yearOf := fun _ => 0
    parseTz := fun _ _ _ => 0 }

/-- A one-day generation year for `ephN`: the birth instant 5 shares civil
day 0 with the single generated day. -/
def evN : YearEvents :=
  { springEquinox := 3, summerSolstice := 500000000000, autumnEquinox := 500000000000
    winterSolstice := 500000000000, springEquinox2 := 3 + 86400000
    aphelion := 500000000000, perihelion := 500000000000, birth := 5 }

/-- The single day record generated by `ephN`/`evN`. -/
def recN : DayRec :=
  { number := 1, date := 0, solarStart := 0, solarNoon := 0
    solarEnd := 0, moonPhase := "New Moon", delta := -86400000, solarDegree := 0
    events := [{ name := "BirthOrbit", description := "Birthday", instant := 5 }] }

/-- A longitude profile on which day 0 never covers the target but the
fallback birth moment shares day 0's civil date, while day 1 covers the
target and the first probe of the search hits it. -/
def lon5 : ℤ → ℚ := fun t =>
  if t = 5 then 10
  else if t = 0 then 0
  else if t = 1 then 0
  else if t = 2 then 1
  else if t = 86400000 then 9
  else if t = 86400001 then 10
  else if t = 86400002 then 11
  else 0

/-- Collaborator wrapping `lon5`, with 3-millisecond solar-day windows. -/
def eph5 : Ephemeris :=
  { longitudeAt := lon5
    solarStart := fun _ t => t
    solarNoon := fun _ t => t + 1
    solarEnd := fun _ t => t + 2
    moonPhaseAngle := fun _ => 0
    seasons := fun y => if y = 0 then ⟨7, 0, 0, 0⟩ else ⟨-100, 0, 0, 0⟩
    aphelionAt := fun _ => 0
    perihelionAt := fun _ => 0
    yearOf := fun _ => 0
    parseTz := fun _ _ _ => 0 }

/-- A two-day generation year for `eph5`, with target degree 10. -/
def ev5 : YearEvents :=
  { springEquinox := 0, summerSolstice := 500000000000, autumnEquinox := 500000000000
    winterSolstice := 500000000000, springEquinox2 := 172800000
    aphelion := 500000000000, perihelion := 500000000000, birth := 5 }

/-- Day 0 of the `eph5` run: tagged BirthOrbit from the fallback birth
moment, whose civil date is day 0. -/
def rec5a : DayRec :=
  { number := 1, date := 0, solarStart := 0, solarNoon := 1
    solarEnd := 2, moonPhase := "New Moon", delta := -86399998, solarDegree := 0
    events := [{ name := "BirthOrbit", description := "Birthday", instant := 5 }] }

/-- Day 1 of the `eph5` run: tagged BirthOrbit from the search hit at
instant 86400001, whose civil date is day 1. -/
def rec5b : DayRec :=
  { number := 2, date := 1, solarStart := 86400000, solarNoon := 86400001
    solarEnd := 86400002, moonPhase := "New Moon", delta := -86399998, solarDegree := 10
    events := [{ name := "BirthOrbit", description := "Birthday", instant := 86400001 }] }

/-- A collaborator on which no day ever covers the target degree and the
birth instant falls on no generated civil day. -/
def eph4 : Ephemeris :=
  { longitudeAt := fun t => if t = -5 then 100 else 50
    solarStart := fun _ _ => 0
    solarNoon := fun _ _ => 0
    solarEnd := fun _ _ => 0
    moonPhaseAngle := fun _ => 0
    seasons := fun y => if y = 0 then ⟨7, 0, 0, 0⟩ else ⟨-100, 0, 0, 0⟩
    aphelionAt := fun _ => 0
    perihelionAt := fun _ => 0
    yearOf := fun _ => 0
    parseTz := fun _ _ _ => 0 }

/-- A two-day generation year for `eph4`. -/
def ev4 : YearEvents :=
  { springEquinox := 3, summerSolstice := 0, autumnEquinox := 0, winterSolstice := 0
    springEquinox2 := 3 + 2 * 86400000, aphelion := 0, perihelion := 0, birth := -5 }

/-- A constant longitude whose unrounded normalized degree is 100.0049 while
its rounded degree is exactly 100. -/
def lonC2 : ℤ → ℚ := fun _ => 1000049/10000

/-! Arithmetic helper lemmas. -/

theorem truncZ_of_nonneg (q : ℚ) (h : 0 ≤ q) : truncZ q = ⌊q⌋ := by
  unfold truncZ
  exact if_pos h

theorem jsMod_eq_floor (x : ℚ) (hx : 0 ≤ x) : jsMod x 360 = x - 360 * ⌊x / 360⌋ := by
  unfold jsMod
  rw [truncZ_of_nonneg _ (div_nonneg hx (by norm_num))]

theorem jsMod_nonneg (x : ℚ) (hx : 0 ≤ x) : 0 ≤ jsMod x 360 := by
  rw [jsMod_eq_floor x hx]
  have h1 : ((⌊x / 360⌋ : ℚ)) ≤ x / 360 := Int.floor_le _
  have h2 : (360 : ℚ) * ((⌊x / 360⌋ : ℚ)) ≤ 360 * (x / 360) := by
    exact mul_le_mul_of_nonneg_left h1 (by norm_num)
  have h3 : (360 : ℚ) * (x / 360) = x := by ring
  linarith

theorem jsMod_lt (x : ℚ) (hx : 0 ≤ x) : jsMod x 360 < 360 := by
  rw [jsMod_eq_floor x hx]
  have h1 : x / 360 < (⌊x / 360⌋ : ℚ) + 1 := Int.lt_floor_add_one _
  have h2 : 360 * (x / 360) < 360 * ((⌊x / 360⌋ : ℚ) + 1) := by
    exact mul_lt_mul_of_pos_left h1 (by norm_num)
  have h3 : (360 : ℚ) * (x / 360) = x := by ring
  linarith

theorem round2_nonneg (q : ℚ) (h : 0 ≤ q) : 0 ≤ round2 q := by
  unfold round2
  apply div_nonneg _ (by norm_num)
  have : (0 : ℤ) ≤ ⌊q * 100 + 1/2⌋ := Int.le_floor.mpr (by push_cast; linarith)
  exact_mod_cast this

theorem round2_le_360 (q : ℚ) (h : q < 360) : round2 q ≤ 360 := by
  unfold round2
  rw [div_le_iff (by norm_num : (0:ℚ) < 100)]
  have h1 : ⌊q * 100 + 1/2⌋ < 36001 := Int.floor_lt.mpr (by push_cast; linarith)
  have h2 : ⌊q * 100 + 1/2⌋ ≤ 36000 := by omega
  calc ((⌊q * 100 + 1/2⌋ : ℤ) : ℚ) ≤ ((36000 : ℤ) : ℚ) := by exact_mod_cast h2
    _ = 360 * 100 := by norm_num

theorem getDegree_range (lon ref : ℚ) (h0 : 0 ≤ lon) (h3 : ref < 360) :
    0 ≤ getDegree lon ref ∧ getDegree lon ref ≤ 360 := by
  have hx : 0 ≤ lon - ref + 360 := by linarith
  unfold getDegree
  exact ⟨round2_nonneg _ (jsMod_nonneg _ hx), round2_le_360 _ (jsMod_lt _ hx)⟩

theorem monthIndexZ_toNat_lt (deg : ℚ) : (monthIndexZ deg).toNat < 12 := by
  unfold monthIndexZ
  by_cases h : 12 ≤ ⌊deg / 30⌋
  · simp [h]
  · rw [if_neg h]
    omega

theorem monthIndexZ_char (deg : ℚ) (h0 : 0 ≤ deg) (h1 : deg ≤ 360) :
    (30 * (((monthIndexZ deg).toNat : ℤ) : ℚ) ≤ deg ∧
      deg < 30 * ((((monthIndexZ deg).toNat : ℤ) : ℚ) + 1)) ∨
    ((monthIndexZ deg).toNat = 0 ∧ 12 ≤ ⌊deg / 30⌋) := by
  unfold monthIndexZ
  have hj0 : (0 : ℤ) ≤ ⌊deg / 30⌋ := Int.le_floor.mpr (by push_cast; positivity)
  by_cases h : 12 ≤ ⌊deg / 30⌋
  · right
    simp [h]
  · left
    rw [if_neg h]
    have hfl : ((⌊deg / 30⌋ : ℚ)) ≤ deg / 30 := Int.floor_le _
    have hfu : deg / 30 < (⌊deg / 30⌋ : ℚ) + 1 := Int.lt_floor_add_one _
    have hcast : ((((⌊deg / 30⌋).toNat : ℤ)) : ℚ) = ((⌊deg / 30⌋ : ℤ) : ℚ) := by
      congr 1
      omega
    rw [hcast]
    constructor
    · have := mul_le_mul_of_nonneg_left hfl (by norm_num : (0:ℚ) ≤ 30)
      have h30 : (30 : ℚ) * (deg / 30) = deg := by ring
      linarith
    · have := mul_lt_mul_of_pos_left hfu (by norm_num : (0:ℚ) < 30)
      have h30 : (30 : ℚ) * (deg / 30) = deg := by ring
      linarith

theorem dayOf_add (t : ℤ) : dayOf (t + msPerDay) = dayOf t + 1 := by
  unfold dayOf msPerDay
  rw [show t + (86400000 : ℤ) = t + 1 * 86400000 by ring]
  exact Int.add_mul_ediv_right t 1 (by norm_num)

/-! List helper lemmas. -/

theorem getD_set {α : Type} (l : List α) (k i : ℕ) (x d : α) :
    (l.set k x).getD i d = if k = i ∧ k < l.length then x else l.getD i d := by
  induction l generalizing k i with
  | nil => simp
  | cons a t ih =>
    cases k with
    | zero =>
      cases i with
      | zero => simp
      | succ n => simp
    | succ m =>
      cases i with
      | zero => simp
      | succ n =>
        have := ih m n
        simp only [List.set, List.getD_cons_succ, List.length_cons]
        rw [this]
        by_cases hmn : m = n
        · subst hmn
          by_cases hml : m < t.length
          · rw [if_pos ⟨rfl, hml⟩, if_pos ⟨rfl, by omega⟩]
          · rw [if_neg (by omega), if_neg (by omega)]
        · rw [if_neg (by omega), if_neg (by omega)]

theorem getD_replicate {α : Type} (d : α) : ∀ (n i : ℕ), (List.replicate n d).getD i d = d := by
  intro n
  induction n with
  | zero => intro i; simp
  | succ m ih =>
    intro i
    cases i with
    | zero => simp [List.replicate]
    | succ j => simpa [List.replicate] using ih j

theorem mem_set_bucket (months : List (List DayRec)) (k : ℕ) (x : DayRec) :
    ∀ i r, r ∈ (months.set k (months.getD k [] ++ [x])).getD i [] →
      r ∈ months.getD i [] ∨ (i = k ∧ r = x) := by
  intro i r hr
  rw [getD_set] at hr
  by_cases hc : k = i ∧ k < months.length
  · obtain ⟨hki, hkl⟩ := hc
    subst hki
    rw [if_pos ⟨rfl, hkl⟩] at hr
    rcases List.mem_append.mp hr with h | h
    · exact Or.inl h
    · simp only [List.mem_singleton] at h
      exact Or.inr ⟨rfl, h⟩
  · rw [if_neg hc] at hr
    exact Or.inl hr

theorem sumLen_set_append (l : List (List DayRec)) (k : ℕ) (x : DayRec)
    (hk : k < l.length) :
    sumLen (l.set k (l.getD k [] ++ [x])) = sumLen l + 1 := by
  induction l generalizing k with
  | nil => simp at hk
  | cons a t ih =>
    cases k with
    | zero =>
      simp [sumLen]
      omega
    | succ m =>
      have hm : m < t.length := by simpa using hk
      have := ih m hm
      simp only [List.getD_cons_succ, List.set]
      simp [sumLen] at this ⊢
      omega

theorem range_sum_getD : ∀ (n : ℕ) (l : List (List DayRec)), l.length = n →
    ((List.range n).map fun a => (l.getD a []).length).sum = sumLen l := by
  intro n
  induction n with
  | zero =>
    intro l h
    have : l = [] := List.length_eq_zero.mp h
    subst this
    simp [sumLen]
  | succ m ih =>
    intro l h
    cases l with
    | nil => simp at h
    | cons a t =>
      have ht : t.length = m := by simpa using h
      have := ih t ht
      rw [List.range_succ_eq_map]
      simp only [List.map_cons, List.map_map, List.sum_cons]
      have hcomp : ((fun a2 => ((a :: t).getD a2 []).length) ∘ Nat.succ)
          = fun a2 => (t.getD a2 []).length := by
        funext a2
        simp [Function.comp]
      rw [hcomp, this]
      simp [sumLen]

/-! Day-loop invariant machinery. -/

theorem stepDay_eq (E : Ephemeris) (obs : Observer) (eqLon target : ℚ)
    (astro : List EventTag) (cur : ℤ) (st : GenState) :
    stepDay E obs eqLon target astro cur st =
      ⟨st.months.set (monthIndexZ (getDegree (E.longitudeAt (E.solarNoon obs cur)) eqLon)).toNat
        ((st.months.getD (monthIndexZ (getDegree (E.longitudeAt (E.solarNoon obs cur)) eqLon)).toNat [])
          ++ [mkDayRec E obs astro cur (foundAfter E obs eqLon target cur st.found)
                (getDegree (E.longitudeAt (E.solarNoon obs cur)) eqLon)
                (st.months.getD (monthIndexZ (getDegree (E.longitudeAt (E.solarNoon obs cur)) eqLon)).toNat []).length]),
       foundAfter E obs eqLon target cur st.found⟩ := rfl

theorem mkDayRec_recOK (E : Ephemeris) (obs : Observer) (astro : List EventTag)
    (cur fd : ℤ) (noonDegree : ℚ) (len : ℕ) :
    RecOK astro (mkDayRec E obs astro cur fd noonDegree len) := by
  unfold RecOK mkDayRec dayEvents
  by_cases hb : dayOf fd = dayOf cur
  · left
    exact ⟨fd, by simp [hb], hb⟩
  · right
    simp [hb]

theorem loopInv_append (astro : List EventTag) (d : ℤ) (months : List (List DayRec))
    (fd0 fd1 : ℤ) (x : DayRec) (k : ℕ)
    (h : LoopInv astro d ⟨months, fd0⟩)
    (hk : k < 12)
    (hx1 : RecOK astro x)
    (hx2 : (monthIndexZ x.solarDegree).toNat = k)
    (hx3 : x.date = d) :
    LoopInv astro (d + 1) ⟨months.set k (months.getD k [] ++ [x]), fd1⟩ := by
  obtain ⟨hlen, hmem⟩ := h
  simp only [GenState.mk.injEq] at hlen hmem ⊢
  constructor
  · simpa [List.length_set] using hlen
  · intro i r hr
    have hk2 : k < months.length := by omega
    rcases mem_set_bucket months k x i r hr with hold | ⟨hik, hrx⟩
    · obtain ⟨h1, h2, h3, h4⟩ := hmem i r hold
      refine ⟨h1, h2, by omega, ?_⟩
      intro j s hs hds
      rcases mem_set_bucket months k x j s hs with hsold | ⟨hjk, hsx⟩
      · exact h4 j s hsold hds
      · exfalso
        subst hsx
        rw [hx3] at hds
        omega
    · rcases hik.symm with rfl
      rcases hrx.symm with rfl
      refine ⟨hx1, hx2, by omega, ?_⟩
      intro j s hs hds
      rcases mem_set_bucket months k x j s hs with hsold | ⟨hjk, hsx⟩
      · exfalso
        obtain ⟨_, _, h3s, _⟩ := hmem j s hsold
        rw [hx3] at hds
        omega
      · exact ⟨hjk.symm, hsx.symm⟩

theorem stepDay_inv (E : Ephemeris) (obs : Observer) (eqLon target : ℚ)
    (astro : List EventTag) (cur : ℤ) (st : GenState)
    (h : LoopInv astro (dayOf cur) st) :
    LoopInv astro (dayOf cur + 1) (stepDay E obs eqLon target astro cur st) := by
  rw [stepDay_eq]
  exact loopInv_append astro (dayOf cur) st.months st.found _ _ _
    (by cases st; exact h)
    (monthIndexZ_toNat_lt _) (mkDayRec_recOK _ _ _ _ _ _ _) rfl rfl

theorem loopInv_mono (astro : List EventTag) (d d2 : ℤ) (st : GenState)
    (hd : d ≤ d2) (h : LoopInv astro d st) : LoopInv astro d2 st := by
  obtain ⟨h1, h2⟩ := h
  refine ⟨h1, ?_⟩
  intro i r hr
  obtain ⟨a, b, c, u⟩ := h2 i r hr
  exact ⟨a, b, by omega, u⟩

theorem dayLoop_inv (E : Ephemeris) (obs : Observer) (eqLon target : ℚ)
    (astro : List EventTag) (endDay : ℤ) :
    ∀ (fuel : ℕ) (cur : ℤ) (st : GenState), LoopInv astro (dayOf cur) st →
      LoopInv astro (dayOf cur + fuel) (dayLoop E obs eqLon target astro endDay fuel cur st) := by
  intro fuel
  induction fuel with
  | zero =>
    intro cur st h
    simpa using h
  | succ n ih =>
    intro cur st h
    by_cases hc : dayOf cur < endDay
    · rw [show dayLoop E obs eqLon target astro endDay (n + 1) cur st
          = dayLoop E obs eqLon target astro endDay n (cur + msPerDay)
              (stepDay E obs eqLon target astro cur st) by simp [dayLoop, hc]]
      have h2 := stepDay_inv E obs eqLon target astro cur st h
      have h3 := ih (cur + msPerDay) (stepDay E obs eqLon target astro cur st)
        (by rw [dayOf_add]; exact h2)
      rw [dayOf_add] at h3
      have heq : dayOf cur + 1 + (n : ℤ) = dayOf cur + ((n : ℤ) + 1) := by ring
      rw [heq] at h3
      have hcast : ((n : ℤ) + 1) = (((n + 1 : ℕ)) : ℤ) := by push_cast; ring
      rwa [hcast] at h3
    · rw [show dayLoop E obs eqLon target astro endDay (n + 1) cur st = st by
        simp [dayLoop, hc]]
      exact loopInv_mono astro (dayOf cur) _ st (by omega) h

theorem loopInv_init (astro : List EventTag) (d fd : ℤ) :
    LoopInv astro d ⟨List.replicate 12 [], fd⟩ := by
  constructor
  · simp
  · intro i r hr
    rw [getD_replicate] at hr
    simp at hr

theorem generateCalendarYear_eq (E : Ephemeris) (obs : Observer) (ev : YearEvents) :
    generateCalendarYear E obs ev =
      (dayLoop E obs (E.longitudeAt ev.springEquinox) (getBirthDegree E ev.birth)
        (equinoxSolsticeEvents ev) (dayOf ev.springEquinox2)
        ((dayOf ev.springEquinox2 - dayOf ev.springEquinox).toNat) ev.springEquinox
        ⟨List.replicate 12 [], ev.birth⟩,
       finalize (dayLoop E obs (E.longitudeAt ev.springEquinox) (getBirthDegree E ev.birth)
        (equinoxSolsticeEvents ev) (dayOf ev.springEquinox2)
        ((dayOf ev.springEquinox2 - dayOf ev.springEquinox).toNat) ev.springEquinox
        ⟨List.replicate 12 [], ev.birth⟩).months) := rfl

theorem generateCalendarYear_inv (E : Ephemeris) (obs : Observer) (ev : YearEvents) :
    ∀ i r, r ∈ (generateCalendarYear E obs ev).1.months.getD i [] →
      RecOK (equinoxSolsticeEvents ev) r ∧ (monthIndexZ r.solarDegree).toNat = i ∧
      ∀ j s, s ∈ (generateCalendarYear E obs ev).1.months.getD j [] →
        r.date = s.date → i = j ∧ r = s := by
  intro i r hr
  have h := dayLoop_inv E obs (E.longitudeAt ev.springEquinox) (getBirthDegree E ev.birth)
    (equinoxSolsticeEvents ev) (dayOf ev.springEquinox2)
    ((dayOf ev.springEquinox2 - dayOf ev.springEquinox).toNat) ev.springEquinox
    ⟨List.replicate 12 [], ev.birth⟩
    (loopInv_init _ _ _)
  rw [generateCalendarYear_eq] at hr
  obtain ⟨h1, h2, h3, h4⟩ := h.2 i r hr
  refine ⟨h1, h2, ?_⟩
  intro j s hs
  rw [generateCalendarYear_eq] at hs
  exact h4 j s hs

/-! Degree-range invariant machinery. -/

theorem stepDay_deg (E : Ephemeris) (obs : Observer) (eqLon target : ℚ)
    (astro : List EventTag) (cur : ℤ) (st : GenState)
    (hL : ∀ t, 0 ≤ E.longitudeAt t ∧ E.longitudeAt t < 360)
    (heq : eqLon < 360)
    (h : DegOK st) : DegOK (stepDay E obs eqLon target astro cur st) := by
  rw [stepDay_eq]
  intro i r hr
  rcases mem_set_bucket st.months _ _ i r hr with hold | ⟨_, hrx⟩
  · exact h i r hold
  · rcases hrx.symm with rfl
    exact getDegree_range _ _ (hL (E.solarNoon obs cur)).1 heq

theorem dayLoop_deg (E : Ephemeris) (obs : Observer) (eqLon target : ℚ)
    (astro : List EventTag) (endDay : ℤ)
    (hL : ∀ t, 0 ≤ E.longitudeAt t ∧ E.longitudeAt t < 360)
    (heq : eqLon < 360) :
    ∀ (fuel : ℕ) (cur : ℤ) (st : GenState), DegOK st →
      DegOK (dayLoop E obs eqLon target astro endDay fuel cur st) := by
  intro fuel
  induction fuel with
  | zero => intro cur st h; exact h
  | succ n ih =>
    intro cur st h
    by_cases hc : dayOf cur < endDay
    · rw [show dayLoop E obs eqLon target astro endDay (n + 1) cur st
          = dayLoop E obs eqLon target astro endDay n (cur + msPerDay)
              (stepDay E obs eqLon target astro cur st) by simp [dayLoop, hc]]
      exact ih (cur + msPerDay) _ (stepDay_deg E obs eqLon target astro cur st hL heq h)
    · rw [show dayLoop E obs eqLon target astro endDay (n + 1) cur st = st by
        simp [dayLoop, hc]]
      exact h

/-! Bucket-size accounting. -/

theorem stepDay_sumLen (E : Ephemeris) (obs : Observer) (eqLon target : ℚ)
    (astro : List EventTag) (cur : ℤ) (st : GenState)
    (hlen : st.months.length = 12) :
    sumLen (stepDay E obs eqLon target astro cur st).months = sumLen st.months + 1 ∧
    (stepDay E obs eqLon target astro cur st).months.length = 12 := by
  rw [stepDay_eq]
  constructor
  · exact sumLen_set_append st.months _ _ (by rw [hlen]; exact monthIndexZ_toNat_lt _)
  · simpa [List.length_set] using hlen

theorem dayLoop_sumLen (E : Ephemeris) (obs : Observer) (eqLon target : ℚ)
    (astro : List EventTag) (endDay : ℤ) :
    ∀ (fuel : ℕ) (cur : ℤ) (st : GenState), st.months.length = 12 →
      dayOf cur + (fuel : ℤ) ≤ endDay →
      sumLen (dayLoop E obs eqLon target astro endDay fuel cur st).months
          = sumLen st.months + fuel ∧
      (dayLoop E obs eqLon target astro endDay fuel cur st).months.length = 12 := by
  intro fuel
  induction fuel with
  | zero =>
    intro cur st hlen hb
    exact ⟨by simp [dayLoop], hlen⟩
  | succ n ih =>
    intro cur st hlen hb
    have hc : dayOf cur < endDay := by
      have : ((n + 1 : ℕ) : ℤ) = (n : ℤ) + 1 := by push_cast; ring
      omega
    rw [show dayLoop E obs eqLon target astro endDay (n + 1) cur st
        = dayLoop E obs eqLon target astro endDay n (cur + msPerDay)
            (stepDay E obs eqLon target astro cur st) by simp [dayLoop, hc]]
    obtain ⟨hs1, hs2⟩ := stepDay_sumLen E obs eqLon target astro cur st hlen
    have hb2 : dayOf (cur + msPerDay) + (n : ℤ) ≤ endDay := by
      rw [dayOf_add]
      have : ((n + 1 : ℕ) : ℤ) = (n : ℤ) + 1 := by push_cast; ring
      omega
    obtain ⟨ih1, ih2⟩ := ih (cur + msPerDay) (stepDay E obs eqLon target astro cur st) hs2 hb2
    refine ⟨?_, ih2⟩
    rw [ih1, hs1]
    omega

/-! Fallback (found-moment) preservation. -/

theorem dayLoop_found (E : Ephemeris) (obs : Observer) (eqLon target : ℚ)
    (astro : List EventTag) (endDay : ℤ)
    (hnone : ∀ cur, searchDay E obs eqLon target cur = none) :
    ∀ (fuel : ℕ) (cur : ℤ) (st : GenState),
      (dayLoop E obs eqLon target astro endDay fuel cur st).found = st.found := by
  intro fuel
  induction fuel with
  | zero => intro cur st; rfl
  | succ n ih =>
    intro cur st
    by_cases hc : dayOf cur < endDay
    · rw [show dayLoop E obs eqLon target astro endDay (n + 1) cur st
          = dayLoop E obs eqLon target astro endDay n (cur + msPerDay)
              (stepDay E obs eqLon target astro cur st) by simp [dayLoop, hc]]
      rw [ih]
      rw [stepDay_eq]
      show foundAfter E obs eqLon target cur st.found = st.found
      unfold foundAfter
      rw [hnone cur]
    · rw [show dayLoop E obs eqLon target astro endDay (n + 1) cur st = st by
        simp [dayLoop, hc]]

/-! Cache correctness machinery. -/

theorem lookup_mem : ∀ (c : LonCache) (t : ℤ) (v : ℚ),
    List.lookup t c = some v → (t, v) ∈ c := by
  intro c
  induction c with
  | nil =>
    intro t v h
    simp [List.lookup] at h
  | cons p rest ih =>
    intro t v h
    obtain ⟨k, b⟩ := p
    by_cases hk : (t == k) = true
    · simp only [List.lookup, hk] at h
      have hkt : t = k := eq_of_beq hk
      rw [List.mem_cons]
      left
      rw [hkt]
      injection h with hbv
      rw [hbv]
    · simp only [List.lookup, Bool.not_eq_true] at hk
      simp only [List.lookup, hk] at h
      exact List.mem_cons_of_mem _ (ih t v h)

theorem getHelioC_fst (f : ℤ → ℚ) (c : LonCache) (t : ℤ) (hc : Consistent f c) :
    (getHelioC f c t).1 = f t := by
  unfold getHelioC
  cases h : List.lookup t c with
  | none => rfl
  | some v => exact hc t v (lookup_mem c t v h)

theorem getHelioC_consistent (f : ℤ → ℚ) (c : LonCache) (t : ℤ) (hc : Consistent f c) :
    Consistent f (getHelioC f c t).2 := by
  unfold getHelioC
  cases h : List.lookup t c with
  | none =>
    intro u w hm
    rcases List.mem_cons.mp hm with he | hm2
    · injection he with h1 h2
      subst h1
      exact h2
    · exact hc u w hm2
  | some v => exact hc

theorem consistent_nil (f : ℤ → ℚ) : Consistent f [] := by
  intro t v h
  simp at h

/-! Equivalence of the cached pipeline with the pure one. -/

theorem getBirthDegreeC_eq (E : Ephemeris) (b : ℤ) (c : LonCache)
    (hc : Consistent E.longitudeAt c) :
    (getBirthDegreeC E b c).1 = getBirthDegree E b ∧
    Consistent E.longitudeAt (getBirthDegreeC E b c).2 := by
  simp only [getBirthDegreeC, getBirthDegree]
  by_cases hb : b < (E.seasons (E.yearOf b)).marEquinox
  · simp only [if_pos hb]
    refine ⟨?_, ?_⟩
    · rw [getHelioC_fst _ _ _ (getHelioC_consistent _ _ _ hc), getHelioC_fst _ _ _ hc]
    · exact getHelioC_consistent _ _ _ (getHelioC_consistent _ _ _ hc)
  · simp only [if_neg hb]
    refine ⟨?_, ?_⟩
    · rw [getHelioC_fst _ _ _ (getHelioC_consistent _ _ _ hc), getHelioC_fst _ _ _ hc]
    · exact getHelioC_consistent _ _ _ (getHelioC_consistent _ _ _ hc)

theorem bisectC_eq (f : ℤ → ℚ) (eqLon target ds de : ℚ) :
    ∀ (fuel : ℕ) (low high : ℤ) (c : LonCache), Consistent f c →
      (bisectC f eqLon target ds de low high fuel c).1
          = bisect f eqLon target ds de low high fuel ∧
      Consistent f (bisectC f eqLon target ds de low high fuel c).2 := by
  intro fuel
  induction fuel with
  | zero => intro low high c hc; exact ⟨rfl, hc⟩
  | succ n ih =>
    intro low high c hc
    by_cases hlh : low ≤ high
    · have hf := getHelioC_fst f c (low + (high - low) / 2) hc
      have hcon := getHelioC_consistent f c (low + (high - low) / 2) hc
      simp only [bisectC, bisect, if_pos hlh]
      rw [hf]
      by_cases h1 : |getDegree (f (low + (high - low) / 2)) eqLon - target| < 1/1000
      · simp only [if_pos h1]
        exact ⟨by trivial, hcon⟩
      · simp only [if_neg h1]
        by_cases h2 : getDegree (f (low + (high - low) / 2)) eqLon < target
        · simp only [if_pos h2]
          by_cases h3 : ds > de ∧ getDegree (f (low + (high - low) / 2)) eqLon < de ∧ target > ds
          · simp only [if_pos h3]
            exact ih _ _ _ hcon
          · simp only [if_neg h3]
            exact ih _ _ _ hcon
        · simp only [if_neg h2]
          by_cases h3 : ds > de ∧ getDegree (f (low + (high - low) / 2)) eqLon > ds ∧ target < de
          · simp only [if_pos h3]
            exact ih _ _ _ hcon
          · simp only [if_neg h3]
            exact ih _ _ _ hcon
    · simp only [bisectC, bisect, if_neg hlh]
      exact ⟨by trivial, hc⟩

theorem searchDayC_eq (E : Ephemeris) (obs : Observer) (eqLon target : ℚ) (cur : ℤ)
    (c : LonCache) (hc : Consistent E.longitudeAt c) :
    (searchDayC E obs eqLon target cur c).1 = searchDay E obs eqLon target cur ∧
    Consistent E.longitudeAt (searchDayC E obs eqLon target cur c).2 := by
  have h1 := getHelioC_fst E.longitudeAt c (E.solarStart obs cur) hc
  have hc1 := getHelioC_consistent E.longitudeAt c (E.solarStart obs cur) hc
  have h2 := getHelioC_fst E.longitudeAt _ (E.solarEnd obs cur) hc1
  have hc2 := getHelioC_consistent E.longitudeAt _ (E.solarEnd obs cur) hc1
  simp only [searchDayC, searchDay]
  rw [h1, h2]
  by_cases hcov : coversTarget (getDegree (E.longitudeAt (E.solarStart obs cur)) eqLon)
      (getDegree (E.longitudeAt (E.solarEnd obs cur)) eqLon) target = true
  · simp only [if_pos hcov]
    exact bisectC_eq _ _ _ _ _ 100 _ _ _ hc2
  · simp only [if_neg hcov]
    exact ⟨by trivial, hc2⟩

theorem stepDayC_eq0 (E : Ephemeris) (obs : Observer) (eqLon target : ℚ)
    (astro : List EventTag) (cur : ℤ) (st : GenState) (c : LonCache) :
    stepDayC E obs eqLon target astro cur st c =
      (⟨st.months.set
          (monthIndexZ (getDegree (getHelioC E.longitudeAt (searchDayC E obs eqLon target cur c).2 (E.solarNoon obs cur)).1 eqLon)).toNat
          ((st.months.getD (monthIndexZ (getDegree (getHelioC E.longitudeAt (searchDayC E obs eqLon target cur c).2 (E.solarNoon obs cur)).1 eqLon)).toNat [])
            ++ [mkDayRec E obs astro cur
                  (match (searchDayC E obs eqLon target cur c).1 with
                    | some m => m
                    | none => st.found)
                  (getDegree (getHelioC E.longitudeAt (searchDayC E obs eqLon target cur c).2 (E.solarNoon obs cur)).1 eqLon)
                  (st.months.getD (monthIndexZ (getDegree (getHelioC E.longitudeAt (searchDayC E obs eqLon target cur c).2 (E.solarNoon obs cur)).1 eqLon)).toNat []).length]),
        (match (searchDayC E obs eqLon target cur c).1 with
          | some m => m
          | none => st.found)⟩,
       (getHelioC E.longitudeAt (searchDayC E obs eqLon target cur c).2 (E.solarNoon obs cur)).2) := rfl

theorem stepDayC_eq (E : Ephemeris) (obs : Observer) (eqLon target : ℚ)
    (astro : List EventTag) (cur : ℤ) (st : GenState) (c : LonCache)
    (hc : Consistent E.longitudeAt c) :
    (stepDayC E obs eqLon target astro cur st c).1 = stepDay E obs eqLon target astro cur st ∧
    Consistent E.longitudeAt (stepDayC E obs eqLon target astro cur st c).2 := by
  obtain ⟨hs1, hs2⟩ := searchDayC_eq E obs eqLon target cur c hc
  have hn := getHelioC_fst E.longitudeAt _ (E.solarNoon obs cur) hs2
  have hcn := getHelioC_consistent E.longitudeAt _ (E.solarNoon obs cur) hs2
  rw [stepDayC_eq0, stepDay_eq]
  rw [hs1, hn]
  exact ⟨rfl, hcn⟩

theorem dayLoopC_eq (E : Ephemeris) (obs : Observer) (eqLon target : ℚ)
    (astro : List EventTag) (endDay : ℤ) :
    ∀ (fuel : ℕ) (cur : ℤ) (st : GenState) (c : LonCache), Consistent E.longitudeAt c →
      (dayLoopC E obs eqLon target astro endDay fuel cur st c).1
          = dayLoop E obs eqLon target astro endDay fuel cur st ∧
      Consistent E.longitudeAt (dayLoopC E obs eqLon target astro endDay fuel cur st c).2 := by
  intro fuel
  induction fuel with
  | zero => intro cur st c hc; exact ⟨rfl, hc⟩
  | succ n ih =>
    intro cur st c hc
    by_cases hcd : dayOf cur < endDay
    · simp only [dayLoopC, dayLoop, if_pos hcd]
      obtain ⟨h1, h2⟩ := stepDayC_eq E obs eqLon target astro cur st c hc
      rw [h1]
      exact ih _ _ _ h2
    · simp only [dayLoopC, dayLoop, if_neg hcd]
      exact ⟨by trivial, hc⟩

theorem generateCalendarYearC_eq (E : Ephemeris) (obs : Observer) (ev : YearEvents)
    (c : LonCache) (hc : Consistent E.longitudeAt c) :
    (generateCalendarYearC E obs ev c).1 = generateCalendarYear E obs ev := by
  have h0 := getHelioC_fst E.longitudeAt c ev.springEquinox hc
  have hc0 := getHelioC_consistent E.longitudeAt c ev.springEquinox hc
  obtain ⟨hb1, hb2⟩ := getBirthDegreeC_eq E ev.birth _ hc0
  simp only [generateCalendarYearC, generateCalendarYear]
  rw [h0, hb1]
  obtain ⟨hd1, hd2⟩ := dayLoopC_eq E obs (E.longitudeAt ev.springEquinox)
    (getBirthDegree E ev.birth) (equinoxSolsticeEvents ev) (dayOf ev.springEquinox2)
    ((dayOf ev.springEquinox2 - dayOf ev.springEquinox).toNat) ev.springEquinox
    ⟨List.replicate 12 [], ev.birth⟩ _ hb2
  rw [hd1]


/-! Closed-run evaluation helpers. -/

theorem dayLoop_zero (E : Ephemeris) (obs : Observer) (eqLon target : ℚ)
    (astro : List EventTag) (endDay : ℤ) (cur : ℤ) (st : GenState) :
    dayLoop E obs eqLon target astro endDay 0 cur st = st := rfl

theorem searchDay_none (E : Ephemeris) (obs : Observer) (eqLon target : ℚ) (cur : ℤ)
    (ds de : ℚ)
    (hds : getDegree (E.longitudeAt (E.solarStart obs cur)) eqLon = ds)
    (hde : getDegree (E.longitudeAt (E.solarEnd obs cur)) eqLon = de)
    (hcov : coversTarget ds de target = false) :
    searchDay E obs eqLon target cur = none := by
  unfold searchDay
  simp only [hds, hde, hcov]
  rfl

theorem generateCalendarYear_snd (E : Ephemeris) (obs : Observer) (ev : YearEvents) :
    (generateCalendarYear E obs ev).2 = finalize (generateCalendarYear E obs ev).1.months := rfl

theorem finalize_totalDays (months : List (List DayRec)) (h12 : months.length = 12) :
    ((finalize months).map MonthRec.totalDays).sum = sumLen months := by
  unfold finalize
  rw [List.map_map]
  have hcomp : (MonthRec.totalDays ∘ fun m =>
      ({ month := m + 1, name := zodiacNames.getD m "", totalDays := (months.getD m []).length,
         days := months.getD m [] } : MonthRec))
      = fun m => (months.getD m []).length := rfl
  rw [hcomp]
  exact range_sum_getD 12 months h12

theorem ephN_lon_range : ∀ t, 0 ≤ ephN.longitudeAt t ∧ ephN.longitudeAt t < 360 := by
  intro t
  show 0 ≤ (if t = 5 then (100 : ℚ) else 50) ∧ (if t = 5 then (100 : ℚ) else 50) < 360
  constructor <;> (split <;> norm_num)

/-! The claims. -/

/-- C1 (amended): for every pair of inputs in the program's operating range
(longitudes in the interval from 0 inclusive to 360 exclusive), `getDegree`
returns the mathematical `(longitude - referenceLongitude + 360) mod 360`
rounded to 2 decimal places, and the result lies in the closed interval
from 0 to 360: the rounding can return exactly 360. -/
theorem claim_C1 : ∀ lon ref : ℚ, 0 ≤ lon → lon < 360 → 0 ≤ ref → ref < 360 →
    getDegree lon ref = round2 ((lon - ref + 360) - 360 * ⌊(lon - ref + 360) / 360⌋) ∧
    0 ≤ getDegree lon ref ∧ getDegree lon ref ≤ 360 := by
  intro lon ref h0 h1 h2 h3
  have hx : 0 ≤ lon - ref + 360 := by linarith
  refine ⟨?_, getDegree_range lon ref h0 h3⟩
  unfold getDegree
  rw [jsMod_eq_floor _ hx]

/-- C1 witness: the range bound instantiated at longitude 359.999 and
reference 0. -/
theorem claim_C1_witness :
    (0 ≤ (359999/1000 : ℚ) ∧ (359999/1000 : ℚ) < 360 ∧ 0 ≤ (0 : ℚ) ∧ (0 : ℚ) < 360) ∧
    (getDegree (359999/1000) 0
        = round2 (((359999/1000 : ℚ) - 0 + 360) - 360 * ⌊((359999/1000 : ℚ) - 0 + 360) / 360⌋) ∧
      0 ≤ getDegree (359999/1000) 0 ∧ getDegree (359999/1000) 0 ≤ 360) :=
  ⟨⟨by norm_num, by norm_num, by norm_num, by norm_num⟩,
   claim_C1 (359999/1000) 0 (by norm_num) (by norm_num) (by norm_num) (by norm_num)⟩

/-- C1 counterexample: at longitude 359.999 and reference 0 — both inside
the interface range — `getDegree` returns exactly 360, refuting the claim
that the output is strictly below 360. -/
theorem claim_C1_counterexample :
    0 ≤ (359999/1000 : ℚ) ∧ (359999/1000 : ℚ) < 360 ∧
    getDegree (359999/1000) 0 = 360 := by
  refine ⟨by norm_num, by norm_num, ?_⟩
  with_unfolding_all decide

/-- C2 (amended): the probe degree compared inside the bisection is the
2-decimal-rounded normalized degree (`getDegree` itself rounds), the same
value used for month bucketing; since the target is also a multiple of 0.01,
the convergence test with tolerance 0.001 is equivalent to exact equality of
the rounded probe and the target. -/
theorem claim_C2 : ∀ lon ref T : ℚ, (∃ k : ℤ, T = (k : ℚ) / 100) →
    (∃ j : ℤ, getDegree lon ref = (j : ℚ) / 100) ∧
    (|getDegree lon ref - T| < 1/1000 ↔ getDegree lon ref = T) := by
  intro lon ref T hT
  obtain ⟨k, rfl⟩ := hT
  refine ⟨⟨⌊jsMod (lon - ref + 360) 360 * 100 + 1/2⌋, rfl⟩, ?_⟩
  have hgd : getDegree lon ref
      = ((⌊jsMod (lon - ref + 360) 360 * 100 + 1/2⌋ : ℤ) : ℚ) / 100 := rfl
  rw [hgd]
  set j := ⌊jsMod (lon - ref + 360) 360 * 100 + 1/2⌋ with hj
  constructor
  · intro h
    have heq : (j : ℚ)/100 - (k : ℚ)/100 = ((j - k : ℤ) : ℚ) / 100 := by push_cast; ring
    rw [heq, abs_div, show |(100 : ℚ)| = 100 by norm_num] at h
    have habs : |((j - k : ℤ) : ℚ)| < 1/10 := by linarith
    have h3 : ((|j - k| : ℤ) : ℚ) < 1 := by
      rw [Int.cast_abs]
      linarith
    have h4 : |j - k| < 1 := by exact_mod_cast h3
    have h5 : j = k := by
      rw [abs_lt] at h4
      omega
    rw [h5]
  · intro h
    rw [h, sub_self, abs_zero]
    norm_num

/-- C2 witness: the rounding shape and the equivalence instantiated at
longitude 100.0049, reference 0, target 100. -/
theorem claim_C2_witness :
    (∃ k : ℤ, (100 : ℚ) = (k : ℚ) / 100) ∧
    ((∃ j : ℤ, getDegree (1000049/10000) 0 = (j : ℚ) / 100) ∧
      (|getDegree (1000049/10000) 0 - 100| < 1/1000 ↔ getDegree (1000049/10000) 0 = 100)) :=
  ⟨⟨10000, by norm_num⟩, claim_C2 (1000049/10000) 0 100 ⟨10000, by norm_num⟩⟩

set_option maxRecDepth 4000 in
/-- C2 counterexample: on a constant longitude of 100.0049 degrees with
reference 0 and target 100, the source's search (whose probe is the rounded
`getDegree`) converges at the first probe, while the spec's unrounded-probe
search never converges; and the rounded probe differs from the unrounded
normalized degree. -/
theorem claim_C2_counterexample :
    bisect lonC2 0 100 100 100 0 2 100 = some 1 ∧
    bisectUnroundedProbe lonC2 0 100 100 100 0 2 100 = none ∧
    getDegree (lonC2 0) 0 ≠ normalizeUnrounded (lonC2 0) 0 :=
  ⟨by with_unfolding_all decide, by with_unfolding_all decide,
   by with_unfolding_all decide⟩

/-- C3 (amended): distinct generated day records always have distinct civil
dates, so a generated year carries at most one BirthOrbit record per civil
date; but (see the counterexample) records on different dates can each carry
a BirthOrbit event when the search matches on several days. -/
theorem claim_C3 : ∀ (E : Ephemeris) (obs : Observer) (ev : YearEvents)
    (i j : ℕ) (r s : DayRec),
    r ∈ (generateCalendarYear E obs ev).1.months.getD i [] →
    s ∈ (generateCalendarYear E obs ev).1.months.getD j [] →
    hasBirthTag r = true → hasBirthTag s = true →
    r.date = s.date → i = j ∧ r = s := by
  intro E obs ev i j r s hr hs hbr hbs hd
  exact (generateCalendarYear_inv E obs ev i r hr).2.2 j s hs hd

set_option maxRecDepth 1200 in
/-- C3 witness: the per-date uniqueness instantiated on the one-day `ephN`
run, whose single record carries the BirthOrbit event via the fallback. -/
theorem claim_C3_witness :
    (recN ∈ (generateCalendarYear ephN obsW evN).1.months.getD 0 [] ∧
      hasBirthTag recN = true) ∧
    (0 = 0 ∧ recN = recN) :=
  ⟨⟨by with_unfolding_all exact List.Mem.head _, by with_unfolding_all rfl⟩,
   claim_C3 ephN obsW evN 0 0 recN recN (by with_unfolding_all exact List.Mem.head _)
     (by with_unfolding_all exact List.Mem.head _) (by with_unfolding_all rfl)
     (by with_unfolding_all rfl) rfl⟩

set_option maxRecDepth 1200 in
/-- C3 counterexample: on the `eph5` collaborator the fallback places the
BirthOrbit event on day 0 and the bisection then matches on day 1, so one
generated year carries two distinct BirthOrbit day records. -/
theorem claim_C3_counterexample :
    rec5a ∈ (generateCalendarYear eph5 obsW ev5).1.months.getD 0 [] ∧
    rec5b ∈ (generateCalendarYear eph5 obsW ev5).1.months.getD 0 [] ∧
    rec5a ≠ rec5b ∧ hasBirthTag rec5a = true ∧ hasBirthTag rec5b = true ∧
    countBirthOrbit (generateCalendarYear eph5 obsW ev5).1.months = 2 :=
  ⟨by with_unfolding_all exact List.Mem.head _,
   by with_unfolding_all exact List.Mem.tail _ (List.Mem.head _),
   by with_unfolding_all decide,
   by with_unfolding_all rfl, by with_unfolding_all rfl,
   by with_unfolding_all rfl⟩

/-- C4: when the bisection search reports no match on any day of the sweep,
the final found birth moment is the original birth instant, unchanged. -/
theorem claim_C4 : ∀ (E : Ephemeris) (obs : Observer) (ev : YearEvents),
    (∀ cur : ℤ, searchDay E obs (E.longitudeAt ev.springEquinox)
        (getBirthDegree E ev.birth) cur = none) →
    (generateCalendarYear E obs ev).1.found = ev.birth := by
  intro E obs ev h
  rw [generateCalendarYear_eq]
  exact dayLoop_found E obs _ _ _ _ h _ _ _

set_option maxRecDepth 1200 in
/-- C4 witness: on the `eph4` collaborator no day covers the target, and the
found moment equals the birth instant `-5`. -/
theorem claim_C4_witness :
    (∀ cur : ℤ, searchDay eph4 obsW (eph4.longitudeAt ev4.springEquinox)
        (getBirthDegree eph4 ev4.birth) cur = none) ∧
    (generateCalendarYear eph4 obsW ev4).1.found = ev4.birth :=
  have h1 : getDegree (eph4.longitudeAt 0) (eph4.longitudeAt ev4.springEquinox) = 0 := by
    with_unfolding_all rfl
  have h3 : coversTarget 0 0 (getBirthDegree eph4 ev4.birth) = false := by
    with_unfolding_all rfl
  ⟨fun cur => searchDay_none eph4 obsW (eph4.longitudeAt ev4.springEquinox)
      (getBirthDegree eph4 ev4.birth) cur 0 0 h1 h1 h3,
   claim_C4 eph4 obsW ev4 (fun cur => searchDay_none eph4 obsW
      (eph4.longitudeAt ev4.springEquinox) (getBirthDegree eph4 ev4.birth) cur 0 0 h1 h1 h3)⟩

/-- C5: a day is classified as a candidate exactly when, in the normal case
(start degree at most end degree) the target lies between the two, and in
the wrap case (start degree above end degree) the target is at least the
start degree or at most the end degree. -/
theorem claim_C5 : ∀ ds de T : ℚ,
    coversTarget ds de T = true ↔
      (if ds ≤ de then ds ≤ T ∧ T ≤ de else T ≥ ds ∨ T ≤ de) := by
  intro ds de T
  by_cases h : ds ≤ de <;> simp [coversTarget, h]

/-- C6: every generated day sits in the bucket selected by the floor of its
solar-noon degree over 30 with the wrap of index 12 to 0; consequently a day
of bucket `i` has noon degree in the interval from `30 i` to `30 (i + 1)`,
except for the wrapped degree values whose floor reaches 12. -/
theorem claim_C6 : ∀ (E : Ephemeris) (obs : Observer) (ev : YearEvents),
    (∀ t, 0 ≤ E.longitudeAt t ∧ E.longitudeAt t < 360) →
    ∀ (i : ℕ) (r : DayRec), r ∈ (generateCalendarYear E obs ev).1.months.getD i [] →
      (monthIndexZ r.solarDegree).toNat = i ∧
      (30 * (((i : ℕ) : ℤ) : ℚ) ≤ r.solarDegree ∧
          r.solarDegree < 30 * ((((i : ℕ) : ℤ) : ℚ) + 1) ∨
        (i = 0 ∧ 12 ≤ ⌊r.solarDegree / 30⌋)) := by
  intro E obs ev hL i r hr
  have hidx := (generateCalendarYear_inv E obs ev i r hr).2.1
  have hr2 : r ∈ (dayLoop E obs (E.longitudeAt ev.springEquinox) (getBirthDegree E ev.birth)
      (equinoxSolsticeEvents ev) (dayOf ev.springEquinox2)
      ((dayOf ev.springEquinox2 - dayOf ev.springEquinox).toNat) ev.springEquinox
      ⟨List.replicate 12 [], ev.birth⟩).months.getD i [] := by
    rw [generateCalendarYear_eq] at hr
    exact hr
  have hinit : DegOK ⟨List.replicate 12 [], ev.birth⟩ := by
    intro i2 r2 h2
    rw [getD_replicate] at h2
    simp at h2
  have hdeg := dayLoop_deg E obs (E.longitudeAt ev.springEquinox) (getBirthDegree E ev.birth)
    (equinoxSolsticeEvents ev) (dayOf ev.springEquinox2) hL (hL ev.springEquinox).2
    ((dayOf ev.springEquinox2 - dayOf ev.springEquinox).toNat) ev.springEquinox
    ⟨List.replicate 12 [], ev.birth⟩ hinit i r hr2
  refine ⟨hidx, ?_⟩
  have hchar := monthIndexZ_char r.solarDegree hdeg.1 hdeg.2
  rw [hidx] at hchar
  exact hchar

set_option maxRecDepth 1200 in
/-- C6 witness: the bucket rule instantiated on the one-day `ephN` run. -/
theorem claim_C6_witness :
    (∀ t, 0 ≤ ephN.longitudeAt t ∧ ephN.longitudeAt t < 360) ∧
    recN ∈ (generateCalendarYear ephN obsW evN).1.months.getD 0 [] ∧
    ((monthIndexZ recN.solarDegree).toNat = 0 ∧
      (30 * (((0 : ℕ) : ℤ) : ℚ) ≤ recN.solarDegree ∧
          recN.solarDegree < 30 * ((((0 : ℕ) : ℤ) : ℚ) + 1) ∨
        (0 = 0 ∧ 12 ≤ ⌊recN.solarDegree / 30⌋))) :=
  ⟨ephN_lon_range, by with_unfolding_all exact List.Mem.head _,
   claim_C6 ephN obsW evN ephN_lon_range 0 recN
     (by with_unfolding_all exact List.Mem.head _)⟩

/-- C7: every generated day record's event list is either exactly the
BirthOrbit singleton — for a moment sharing the record's civil date, with
all astronomical events of that date excluded — or exactly the astronomical
events falling on the record's civil date. -/
theorem claim_C7 : ∀ (E : Ephemeris) (obs : Observer) (ev : YearEvents)
    (i : ℕ) (r : DayRec),
    r ∈ (generateCalendarYear E obs ev).1.months.getD i [] →
    (∃ m : ℤ, r.events = [{ name := "BirthOrbit", description := "Birthday", instant := m }] ∧
        dayOf m = r.date) ∨
    r.events = (equinoxSolsticeEvents ev).filter fun e => decide (dayOf e.instant = r.date) := by
  intro E obs ev i r hr
  exact (generateCalendarYear_inv E obs ev i r hr).1

set_option maxRecDepth 1200 in
/-- C7 witness: the event-shape property instantiated on the one-day `ephN`
run, whose single record carries exactly the BirthOrbit singleton even
though the Spring Equinox falls on the same civil date. -/
theorem claim_C7_witness :
    recN ∈ (generateCalendarYear ephN obsW evN).1.months.getD 0 [] ∧
    ((∃ m : ℤ, recN.events = [{ name := "BirthOrbit", description := "Birthday", instant := m }] ∧
        dayOf m = recN.date) ∨
      recN.events = (equinoxSolsticeEvents evN).filter fun e => decide (dayOf e.instant = recN.date)) :=
  ⟨by with_unfolding_all exact List.Mem.head _,
   claim_C7 ephN obsW evN 0 recN (by with_unfolding_all exact List.Mem.head _)⟩

/-- C8: every finalized month's TotalDays equals the length of its day
sequence, and the TotalDays of the 12 buckets sum to the number of civil
days from the Spring Equinox (inclusive) up to the next Spring Equinox
(exclusive) — each iterated civil day lands in exactly one bucket. -/
theorem claim_C8 : ∀ (E : Ephemeris) (obs : Observer) (ev : YearEvents),
    (∀ m ∈ (generateCalendarYear E obs ev).2, m.totalDays = m.days.length) ∧
    ((generateCalendarYear E obs ev).2.map MonthRec.totalDays).sum
        = (dayOf ev.springEquinox2 - dayOf ev.springEquinox).toNat := by
  intro E obs ev
  constructor
  · intro m hm
    rw [generateCalendarYear_snd] at hm
    unfold finalize at hm
    rw [List.mem_map] at hm
    obtain ⟨a, ha, rfl⟩ := hm
    rfl
  · rcases le_or_lt (dayOf ev.springEquinox) (dayOf ev.springEquinox2) with hle | hlt
    · have hb : dayOf ev.springEquinox
          + (((dayOf ev.springEquinox2 - dayOf ev.springEquinox).toNat : ℕ) : ℤ)
          ≤ dayOf ev.springEquinox2 := by omega
      obtain ⟨hsum, h12⟩ := dayLoop_sumLen E obs (E.longitudeAt ev.springEquinox)
        (getBirthDegree E ev.birth) (equinoxSolsticeEvents ev) (dayOf ev.springEquinox2)
        ((dayOf ev.springEquinox2 - dayOf ev.springEquinox).toNat) ev.springEquinox
        ⟨List.replicate 12 [], ev.birth⟩ (by simp) hb
      rw [generateCalendarYear_snd, generateCalendarYear_eq]
      rw [finalize_totalDays _ h12, hsum]
      have hz : sumLen (GenState.mk (List.replicate 12 []) ev.birth).months = 0 := by
        simp [sumLen]
      rw [hz]
      omega
    · have h0 : (dayOf ev.springEquinox2 - dayOf ev.springEquinox).toNat = 0 := by omega
      rw [generateCalendarYear_snd, generateCalendarYear_eq, h0, dayLoop_zero]
      rw [finalize_totalDays _ (by simp)]
      simp [sumLen]

/-- C9: `generateCalendar` clears the longitude cache at the start of every
call, so two invocations with identical parameters — whatever the module
state each one starts from — publish identical calendars and leave identical
module states; and the published calendar equals the pure (cache-free)
generation of the same year. -/
theorem claim_C9 : ∀ (E : Ephemeris) (p : GenParams) (w1 w2 : World),
    (generateCalendar E p w1).2 = (generateCalendar E p w2).2 ∧
    (generateCalendar E p w1).1 = (generateCalendar E p w2).1 ∧
    (generateCalendar E p w1).2
      = (generateCalendarYear E ⟨p.latitude, p.longitude, p.elevation⟩
          (eventListM E p.year (E.parseTz p.birthDate p.birthTime p.timezone))).2 := by
  intro E p w1 w2
  refine ⟨rfl, rfl, ?_⟩
  show (generateCalendarYearC E ⟨p.latitude, p.longitude, p.elevation⟩
      (eventListM E p.year (E.parseTz p.birthDate p.birthTime p.timezone)) []).1.2
    = (generateCalendarYear E ⟨p.latitude, p.longitude, p.elevation⟩
        (eventListM E p.year (E.parseTz p.birthDate p.birthTime p.timezone))).2
  rw [generateCalendarYearC_eq _ _ _ [] (consistent_nil _)]

/-- C10: for every value the normalizer can actually return — the closed
interval from 0 to 360, including exactly 360 — the wrapped month index is
in the interval from 0 to 11, so the indexed bucket access is in bounds and
every day is assigned a month. -/
theorem claim_C10 : ∀ lon ref : ℚ, 0 ≤ lon → ref < 360 →
    0 ≤ monthIndexZ (getDegree lon ref) ∧ monthIndexZ (getDegree lon ref) < 12 ∧
    (monthIndexZ (getDegree lon ref)).toNat < 12 := by
  intro lon ref h0 h3
  obtain ⟨hd0, hd1⟩ := getDegree_range lon ref h0 h3
  refine ⟨?_, ?_, monthIndexZ_toNat_lt _⟩
  · show 0 ≤ (if 12 ≤ ⌊getDegree lon ref / 30⌋ then (0 : ℤ) else ⌊getDegree lon ref / 30⌋)
    split
    · exact le_refl 0
    · exact Int.floor_nonneg.mpr (div_nonneg hd0 (by norm_num))
  · show (if 12 ≤ ⌊getDegree lon ref / 30⌋ then (0 : ℤ) else ⌊getDegree lon ref / 30⌋) < 12
    split <;> omega

/-- C10 witness: the month index at the wrapped degree value 360, reached at
longitude 359.999 and reference 0. -/
theorem claim_C10_witness :
    (0 ≤ (359999/1000 : ℚ) ∧ (0 : ℚ) < 360) ∧
    (0 ≤ monthIndexZ (getDegree (359999/1000) 0) ∧
      monthIndexZ (getDegree (359999/1000) 0) < 12 ∧
      (monthIndexZ (getDegree (359999/1000) 0)).toNat < 12) :=
  ⟨⟨by norm_num, by norm_num⟩, claim_C10 (359999/1000) 0 (by norm_num) (by norm_num)⟩
